import Mathlib

/-!
Verification of the incremental list-materialization engine of the
InstagramAnalytics repository (`ig_access.py`).

The shallow embedding below translates the pure logic of the source into
Lean functions.  Effectful browser-automation calls (scrolling and taking a
snapshot of the rendered dialog text) are modelled by an explicit snapshot
stream `snaps : Nat → String`: `snaps k` is the text that the `k`-th call to
`find_element_by_class_name('_b9n99').text` would observe.  Polling loops,
which in the source run until an exit condition, are given an explicit fuel
parameter; a result of `none` means the loop had not terminated after `fuel`
iterations.
-/

namespace IGAccess

/-- Splitting a character sequence at every newline, keeping empty pieces:
the semantics of Python `str.split('\n')`.  On the empty sequence it yields
one empty piece, matching Python `''.split('\n') == ['']`. -/
def split_chars : List Char → List String
  | [] => [""]
  | c :: rest =>
    if c = '\n' then "" :: split_chars rest
    else
      match split_chars rest with
      | [] => [String.mk [c]]
      | h :: t => String.mk (c :: h.data) :: t

/-- Python `raw_string.split('\n')` (kernel-computable counterpart of
`String.splitOn "\n"`). -/
def split_lines (raw_string : String) : List String :=
  split_chars raw_string.data

/-- Embedding of `IGAccess._clean_list`.  The raw dialog text is split on
newlines; a line at position `i` is a username line iff `i = 0` or the
preceding line is exactly `Following` or `Follow`; a username is tagged with
the suffix ` (Verified)` when the following line is exactly `Verified`
(an out-of-range lookahead, `IndexError` in the source, leaves the name
untagged). -/
def clean_list (raw_string : String) : List String :=
  let raw_list := split_lines raw_string
  (List.range raw_list.length).foldl
    (fun return_list i =>
      if i = 0 ∨ raw_list.getD (i - 1) "" ∈ ["Following", "Follow"] then
        let name := raw_list.getD i ""
        let name :=
          if raw_list[i + 1]? = some "Verified" then name ++ " (Verified)" else name
        return_list ++ [name]
      else return_list)
    []

/-- The name-line test of the specification: position `i` of the split blob
is a name line iff it is the first line or the immediately preceding line is
exactly `Follow` or `Following`. -/
def is_name_line (lines : List String) (i : Nat) : Bool :=
  decide (i = 0 ∨ lines.getD (i - 1) "" ∈ ["Following", "Follow"])

/-- Record list as described by the specification's parser contract: one
record per name line, in stream order, tagged verified exactly when the line
after the name line equals `Verified` (an out-of-bounds lookahead counts as
unverified). -/
def parser_records (raw_string : String) : List String :=
  let lines := split_lines raw_string
  ((List.range lines.length).filter (is_name_line lines)).map
    (fun i =>
      if lines[i + 1]? = some "Verified" then lines.getD i "" ++ " (Verified)"
      else lines.getD i "")

/-- Number of name lines of a raw blob. -/
def name_line_count (raw_string : String) : Nat :=
  ((List.range (split_lines raw_string).length).filter
    (is_name_line (split_lines raw_string))).length

/-- A fold that conditionally appends one element per satisfying index is a
filter-then-map. -/
lemma foldl_append_filter {α β : Type} (p : α → Prop) [DecidablePred p] (f : α → β)
    (xs : List α) (acc : List β) :
    xs.foldl (fun a i => if p i then a ++ [f i] else a) acc =
      acc ++ (xs.filter (fun i => decide (p i))).map f := by
  induction xs generalizing acc with
  | nil => simp
  | cons x xs ih =>
    by_cases hx : p x
    · simp [List.foldl_cons, if_pos hx, ih, List.filter_cons, hx]
    · simp [List.foldl_cons, if_neg hx, ih, List.filter_cons, hx]

/-- Embedding of the polling loop of `IGAccess._get_list_of_users`
(followers/following materialization).  Each iteration re-checks
`len(list_of_users) < num_users`, scrolls, and replaces `list_of_users`
with the parse of the next snapshot; there is no stall detection.  `fuel`
bounds the number of loop-condition checks; `none` means the loop was still
running after `fuel` checks. -/
def users_loop (snaps : Nat → String) (num_users : Nat) :
    Nat → List String → Nat → Option (List String)
  | 0, _, _ => none
  | fuel + 1, list_of_users, k =>
    if list_of_users.length < num_users then
      users_loop snaps num_users fuel (clean_list (snaps k)) (k + 1)
    else some list_of_users

/-- Embedding of `IGAccess._get_list_of_users`: parse the initial snapshot, then poll. -/
def get_list_of_users (snaps : Nat → String) (num_users : Nat) (fuel : Nat) :
    Option (List String) :=
  users_loop snaps num_users fuel (clean_list (snaps 0)) 1

/-- Embedding of the polling loop of `IGAccess._get_likes_from_post`.
State: the current `list_of_users`, the stall counter `update_delay`
(counted here in 0.5-second steps, so the source's `update_delay == 5`
check is `update_delay = 10`), and the index of the next snapshot.  On the
threshold the source raises `IGAccessException` mentioning `last_count` and
`num_of_likes` unless `len(list_of_users) + 1 == num_of_likes` (the
off-by-one tolerance), in which case it breaks and returns the list; the
exception is modelled by `Except.error (last_count, num_of_likes)`. -/
def likes_loop (snaps : Nat → String) (num_of_likes : Nat) :
    Nat → List String → Nat → Nat → Option (Except (Nat × Nat) (List String))
  | 0, _, _, _ => none
  | fuel + 1, list_of_users, update_delay, k =>
    if list_of_users.length < num_of_likes then
      let last_count := list_of_users.length
      let updated := clean_list (snaps k)
      let delay := if updated.length = last_count then update_delay + 1 else 0
      if delay = 10 then
        if ¬ (updated.length + 1 = num_of_likes) then
          some (Except.error (last_count, num_of_likes))
        else some (Except.ok updated)
      else likes_loop snaps num_of_likes fuel updated delay (k + 1)
    else some (Except.ok list_of_users)

/-- Embedding of `IGAccess._get_likes_from_post`: parse the initial snapshot, then poll
with the stall counter starting at zero. -/
def get_likes_from_post (snaps : Nat → String) (num_of_likes : Nat) (fuel : Nat) :
    Option (Except (Nat × Nat) (List String)) :=
  likes_loop snaps num_of_likes fuel (clean_list (snaps 0)) 0 1

/-- On a frozen snapshot stream whose parse stays strictly below the target,
`_get_list_of_users` never leaves its polling loop, whatever the fuel. -/
lemma users_loop_frozen (snaps : Nat → String) (l : List String) (num_users : Nat)
    (hf : ∀ k, clean_list (snaps k) = l) (hlt : l.length < num_users) :
    ∀ fuel k list₀, list₀.length < num_users →
      users_loop snaps num_users fuel list₀ k = none := by
  intro fuel
  induction fuel with
  | zero => intro k list₀ h; rfl
  | succ n ih =>
    intro k list₀ h
    rw [users_loop, if_pos h]
    exact ih (k + 1) (clean_list (snaps k)) (by rw [hf k]; exact hlt)

/-- On a frozen snapshot stream whose parse stays strictly below the target,
the `_get_likes_from_post` loop resolves once the stall counter reaches the
threshold: by the off-by-one tolerance when `count + 1 = target`, by the
timeout exception (carrying the partial count and the target) otherwise. -/
lemma likes_loop_frozen (snaps : Nat → String) (l : List String) (num_of_likes : Nat)
    (hf : ∀ k, clean_list (snaps k) = l) (hlt : l.length < num_of_likes) :
    ∀ fuel delay k, delay < 10 → 10 - delay ≤ fuel →
      likes_loop snaps num_of_likes fuel l delay k =
        some (if l.length + 1 = num_of_likes then Except.ok l
          else Except.error (l.length, num_of_likes)) := by
  intro fuel
  induction fuel with
  | zero => intro delay k hd hfu; omega
  | succ n ih =>
    intro delay k hd hfu
    rw [likes_loop, if_pos hlt]
    simp only [hf k, eq_self_iff_true, if_true]
    by_cases h10 : delay + 1 = 10
    · rw [if_pos h10]
      by_cases htol : l.length + 1 = num_of_likes
      · rw [if_neg (fun hc => hc htol), if_pos htol]
      · rw [if_pos htol, if_neg htol]
    · rw [if_neg h10]
      exact ih (delay + 1) (k + 1) (by omega) (by omega)

/-- C1 (amended): only the per-post likers materialization loop detects
stalls.  On a snapshot stream whose parsed count freezes strictly below the
target, `_get_likes_from_post` terminates once the idle threshold is
reached (returning the list under the off-by-one tolerance or raising the
stall exception), while `_get_list_of_users` — the followers/following
loop — has no stall detection and never terminates, whatever the fuel. -/
theorem materialize_stall_termination (snaps₁ snaps₂ : Nat → String)
    (l₁ l₂ : List String) (t₁ t₂ fuel₁ : Nat)
    (h₁ : ∀ k, clean_list (snaps₁ k) = l₁) (hlt₁ : l₁.length < t₁)
    (hfu : 10 ≤ fuel₁)
    (h₂ : ∀ k, clean_list (snaps₂ k) = l₂) (hlt₂ : l₂.length < t₂) :
    (get_likes_from_post snaps₁ t₁ fuel₁).isSome = true ∧
    ∀ fuel₂, get_list_of_users snaps₂ t₂ fuel₂ = none := by
  constructor
  · unfold get_likes_from_post
    rw [h₁ 0, likes_loop_frozen snaps₁ l₁ t₁ h₁ hlt₁ fuel₁ 0 1 (by omega) (by omega)]
    rfl
  · intro fuel₂
    unfold get_list_of_users
    exact users_loop_frozen snaps₂ l₂ t₂ h₂ hlt₂ fuel₂ 1 (clean_list (snaps₂ 0))
      (by rw [h₂ 0]; exact hlt₂)

/-- C1 (witness): a concrete frozen stream of four likers with target five
makes the likers loop resolve, while a frozen one-follower stream with
target three leaves the followers loop still polling after seven checks. -/
theorem materialize_stall_termination_witness :
    (get_likes_from_post (fun _ => "A\nFollow\nB\nFollow\nC\nFollow\nD") 5 12).isSome = true ∧
    get_list_of_users (fun _ => "A") 3 7 = none := by
  have h := materialize_stall_termination
    (fun _ => "A\nFollow\nB\nFollow\nC\nFollow\nD") (fun _ => "A")
    ["A", "B", "C", "D"] ["A"] 5 3 12
    (fun _ => rfl) (by decide) (by omega) (fun _ => rfl) (by decide)
  exact ⟨h.1, h.2 7⟩

/-- C1 (counterexample): a materialization run of the followers/following
loop whose parsed count is frozen at one below a target of three is still
polling after twenty loop checks — four times the idle threshold — so the
claim that every materialization run terminates within the threshold fails
on `_get_list_of_users`. -/
theorem get_list_of_users_frozen_counterexample :
    get_list_of_users (fun _ => "A") 3 20 = none := by
  decide

/-- C2: once the parsed count has stayed frozen strictly below the target
for the full idle threshold (ten 0.5-unit polls), `_get_likes_from_post`
resolves with the current list exactly when `count + 1 = target`, and
otherwise raises the stall exception carrying the last partial count and
the target. -/
theorem stall_policy_resolution (snaps : Nat → String) (l : List String)
    (num_of_likes fuel : Nat)
    (hf : ∀ k, clean_list (snaps k) = l) (hlt : l.length < num_of_likes)
    (hfu : 10 ≤ fuel) :
    get_likes_from_post snaps num_of_likes fuel =
      some (if l.length + 1 = num_of_likes then Except.ok l
        else Except.error (l.length, num_of_likes)) := by
  unfold get_likes_from_post
  rw [hf 0]
  exact likes_loop_frozen snaps l num_of_likes hf hlt fuel 0 1 (by omega) (by omega)

/-- C2 (witness): target five, count frozen at four past the threshold —
the off-by-one tolerance resolves done with the four collected likers. -/
theorem stall_policy_resolution_witness :
    get_likes_from_post (fun _ => "A\nFollow\nB\nFollow\nC\nFollow\nD") 5 12 =
      some (Except.ok ["A", "B", "C", "D"]) := by
  have h := stall_policy_resolution (fun _ => "A\nFollow\nB\nFollow\nC\nFollow\nD")
    ["A", "B", "C", "D"] 5 12 (fun _ => rfl) (by decide) (by omega)
  simpa using h

/-- Any successful result of the `_get_likes_from_post` loop is literally
the parse of one snapshot: the loop replaces its list wholesale each
iteration instead of merging. -/
lemma likes_loop_ok_parse (snaps : Nat → String) (num_of_likes : Nat) (l : List String) :
    ∀ fuel list₀ delay k, (∃ j, list₀ = clean_list (snaps j)) →
      likes_loop snaps num_of_likes fuel list₀ delay k = some (Except.ok l) →
      ∃ j, l = clean_list (snaps j) := by
  intro fuel
  induction fuel with
  | zero => intro list₀ delay k _ h; exact absurd h (by simp [likes_loop])
  | succ n ih =>
    intro list₀ delay k hj h
    rw [likes_loop] at h
    by_cases hlt : list₀.length < num_of_likes
    · rw [if_pos hlt] at h
      by_cases h10 :
          (if (clean_list (snaps k)).length = list₀.length then delay + 1 else 0) = 10
      · rw [if_pos h10] at h
        by_cases htol : ¬ ((clean_list (snaps k)).length + 1 = num_of_likes)
        · rw [if_pos htol] at h
          exact absurd h (by simp)
        · rw [if_neg htol] at h
          exact ⟨k, by simpa using h.symm⟩
      · rw [if_neg h10] at h
        exact ih (clean_list (snaps k)) _ (k + 1) ⟨k, rfl⟩ h
    · rw [if_neg hlt] at h
      obtain ⟨j, hj⟩ := hj
      exact ⟨j, by simpa [hj] using h.symm⟩

/-- C5 (amended): the running list of a materialization run is not a
union-merge of the snapshots seen so far — each polling iteration replaces
it wholesale with the parse of the latest snapshot, so any list the run
returns is exactly the parse of a single snapshot, with no deduplication;
it repeats a name whenever that snapshot's text repeats it. -/
theorem materialize_list_is_latest_parse (snaps : Nat → String)
    (num_of_likes fuel : Nat) (l : List String)
    (h : get_likes_from_post snaps num_of_likes fuel = some (Except.ok l)) :
    ∃ j, l = clean_list (snaps j) :=
  likes_loop_ok_parse snaps num_of_likes l fuel (clean_list (snaps 0)) 0 1 ⟨0, rfl⟩ h

/-- C5 (witness): a run that converges on the stream frozen at
`A\nFollow\nB` returns `[A, B]`, which is the parse of that snapshot. -/
theorem materialize_list_is_latest_parse_witness :
    ∃ j : Nat, ["A", "B"] = clean_list ((fun _ : Nat => "A\nFollow\nB") j) :=
  materialize_list_is_latest_parse (fun _ => "A\nFollow\nB") 2 3 ["A", "B"] rfl

/-- C5 (counterexample): a materialization run whose snapshot text repeats
the name `A` returns a running list containing `A` twice — the running list
is not duplicate-free by name, because the loop performs replacement, not a
union by name. -/
theorem materialize_duplicate_counterexample :
    get_likes_from_post (fun _ => "A\nFollow\nA") 2 5 = some (Except.ok ["A", "A"]) ∧
    ¬ (["A", "A"] : List String).Nodup := by
  exact ⟨rfl, by decide⟩

/-- C3 (counterexample): parsing the empty blob does not yield the empty
sequence — `_clean_list` applied to `""` returns the one-element list
`[""]`, because splitting the empty string yields one empty line and the
first line is always taken as a name line. -/
theorem clean_list_empty_not_nil : clean_list "" ≠ ([] : List String) := by
  decide

/-- C3 (amended): parsing the empty raw blob yields a single degenerate
record whose name is the empty string. -/
theorem clean_list_empty_blob : clean_list "" = [""] := by
  decide

/-- C4: for every raw text blob, `_clean_list` returns exactly one record
per name line (a line that is first or immediately preceded by a line equal
to exactly `Follow` or `Following`), in stream order, tagging a record
verified iff the line after its name line equals `Verified`, with an
out-of-bounds lookahead treated as unverified; in particular the number of
records equals the number of name lines. -/
theorem clean_list_wellformed (raw_string : String) :
    clean_list raw_string = parser_records raw_string ∧
    (clean_list raw_string).length = name_line_count raw_string := by
  have h : clean_list raw_string = parser_records raw_string := by
    show (List.range ((split_lines raw_string).length)).foldl
        (fun return_list i =>
          if i = 0 ∨ (split_lines raw_string).getD (i - 1) "" ∈ ["Following", "Follow"] then
            return_list ++
              [if (split_lines raw_string)[i + 1]? = some "Verified" then
                  (split_lines raw_string).getD i "" ++ " (Verified)"
                else (split_lines raw_string).getD i ""]
          else return_list)
        [] = parser_records raw_string
    rw [foldl_append_filter]
    simp only [List.nil_append]
    rfl
  refine ⟨h, ?_⟩
  rw [h]
  simp [parser_records, name_line_count]

/-- Embedding of the refresh step of `IGAccess.collect_posts_data`: the
surfaced post ids (in the order the refreshed page lists them) are folded
over the recorded id list, appending a surfaced id iff it is not already
recorded. -/
def refresh_ids (data_ids : List String) (surfaced : List String) : List String :=
  surfaced.foldl (fun acc new_id => if new_id ∈ acc then acc else acc ++ [new_id]) data_ids

/-- Embedding of the outer post-id scan of `IGAccess.collect_posts_data`:
for `i` in `range num_of_posts`, after processing item `i` the outer list is
re-queried exactly when `(i + 1) % 12 == 0` and the surfaced ids are merged
by `refresh_ids`.  `surface i` is the id list the refresh at step `i` would
read from the page. -/
def collect_scan (num_of_posts : Nat) (surface : Nat → List String)
    (data_ids : List String) : List String :=
  (List.range num_of_posts).foldl
    (fun acc i => if (i + 1) % 12 = 0 then refresh_ids acc (surface i) else acc) data_ids

/-- The ids a refresh appends, as the specification words it: the surfaced
ids not already recorded, first occurrences only, in surfaced order. -/
def new_ids (recorded : List String) : List String → List String
  | [] => []
  | n :: rest =>
    if n ∈ recorded then new_ids recorded rest else n :: new_ids (recorded ++ [n]) rest

lemma refresh_ids_eq_append (surfaced : List String) :
    ∀ data_ids, refresh_ids data_ids surfaced = data_ids ++ new_ids data_ids surfaced := by
  induction surfaced with
  | nil => intro data_ids; simp [refresh_ids, new_ids]
  | cons n rest ih =>
    intro data_ids
    by_cases hn : n ∈ data_ids
    · show refresh_ids (if n ∈ data_ids then data_ids else data_ids ++ [n]) rest = _
      rw [if_pos hn, ih data_ids, new_ids, if_pos hn]
    · show refresh_ids (if n ∈ data_ids then data_ids else data_ids ++ [n]) rest = _
      rw [if_neg hn, ih (data_ids ++ [n]), new_ids, if_neg hn, List.append_assoc]
      rfl

lemma mem_new_ids (m : String) (surfaced : List String) :
    ∀ recorded, m ∈ new_ids recorded surfaced ↔ (m ∈ surfaced ∧ m ∉ recorded) := by
  induction surfaced with
  | nil => intro recorded; simp [new_ids]
  | cons n rest ih =>
    intro recorded
    by_cases hn : n ∈ recorded
    · rw [new_ids, if_pos hn, ih recorded]
      constructor
      · exact fun h => ⟨List.mem_cons_of_mem n h.1, h.2⟩
      · rintro ⟨hm, hnr⟩
        rcases List.mem_cons.mp hm with rfl | hm
        · exact absurd hn hnr
        · exact ⟨hm, hnr⟩
    · rw [new_ids, if_neg hn]
      constructor
      · intro h
        rcases List.mem_cons.mp h with rfl | h
        · exact ⟨List.mem_cons_self m rest, hn⟩
        · have := (ih (recorded ++ [n])).mp h
          refine ⟨List.mem_cons_of_mem n this.1, fun hc => this.2 ?_⟩
          exact List.mem_append_left [n] hc
      · rintro ⟨hm, hnr⟩
        rcases List.mem_cons.mp hm with rfl | hm
        · exact List.mem_cons_self m _
        · by_cases hmn : m = n
          · subst hmn; exact List.mem_cons_self m _
          · refine List.mem_cons_of_mem n ((ih (recorded ++ [n])).mpr ⟨hm, ?_⟩)
            intro hc
            rcases List.mem_append.mp hc with hc | hc
            · exact hnr hc
            · exact hmn (List.mem_singleton.mp hc)

/-- Thirteen post ids as read from the outer posts panel before the walk. -/
def thirteen_ids : List String :=
  ["p01", "p02", "p03", "p04", "p05", "p06", "p07",
   "p08", "p09", "p10", "p11", "p12", "p13"]

/-- A refresh schedule in which the re-query after the twelfth processed
item surfaces one already-recorded id and two new ids. -/
def two_new_surface : Nat → List String :=
  fun i => if i = 11 then ["p01", "p14", "p15"] else []

/-- C6: a refresh of the outer post list appends exactly the surfaced ids
that are not already recorded (by id equality) at the end of the recorded
list, keeping the already-recorded ids as an order-preserved prefix; the
scan re-queries after every 12th processed item (1-indexed), so an outer
list of 13 ids that surfaces 2 new ids after item 12 grows to the original
13 ids followed by exactly those 2 new ids. -/
theorem collect_posts_outer_refresh (data_ids surfaced : List String) :
    refresh_ids data_ids surfaced = data_ids ++ new_ids data_ids surfaced ∧
    (∀ m, m ∈ new_ids data_ids surfaced ↔ (m ∈ surfaced ∧ m ∉ data_ids)) ∧
    collect_scan 13 two_new_surface thirteen_ids = thirteen_ids ++ ["p14", "p15"] := by
  refine ⟨refresh_ids_eq_append surfaced data_ids,
    fun m => mem_new_ids m surfaced data_ids, ?_⟩
  decide

/-- Control-flow embedding of `IGAccess._get_like_data`.  The walker runs
`for i in range(len(data_per_post))`; each iteration scrapes the post the
page currently displays, then clicks the next-arrow; when the arrow is
absent (`NoSuchElementException`) the source executes `continue`, so the
displayed post stays put and the loop moves to the next index anyway.
`has_next page` tells whether the arrow exists while post `page` is
displayed; the result lists the displayed-post index scraped at each
iteration. -/
def like_walk (num_posts : Nat) (has_next : Nat → Bool) : List Nat :=
  ((List.range num_posts).foldl
    (fun st _ =>
      let scraped := st.1 ++ [st.2]
      if has_next st.2 then (scraped, st.2 + 1) else (scraped, st.2))
    (([] : List Nat), 0)).1

/-- C7 (code bug): with three recorded posts and the next-arrow absent
already after the first displayed post, the walker does not stop — the
`continue` branch keeps iterating, scraping the same displayed post at all
three loop indices instead of ending the walk after the first. -/
theorem like_walk_continues_after_missing_next :
    like_walk 3 (fun _ => false) = [0, 0, 0] ∧
    like_walk 3 (fun _ => false) ≠ [0] := by
  exact ⟨rfl, by decide⟩

/-- One entry of `data_per_post` after the like pass, restricted to the
fields the aggregation step reads. -/
structure PostData where
  id : String
  likes : Nat
deriving DecidableEq

/-- Source line `total_likes = sum([data['likes'] for data in data_per_post])`. -/
def total_likes (data_per_post : List PostData) : Nat :=
  (data_per_post.map PostData.likes).sum

/-- Source: `avg_likes = 0`, overwritten by `total_likes / len(data_per_post)` when
the post list is non-empty (division modelled exactly, over `ℚ`). -/
def avg_likes (data_per_post : List PostData) : ℚ :=
  if data_per_post.length ≠ 0 then
    (total_likes data_per_post : ℚ) / (data_per_post.length : ℚ)
  else 0

/-- C8: `total_likes` is the sum of the `likes` field over the collected
posts, `avg_likes` is their arithmetic mean whenever at least one post was
collected, and the empty post list yields `avg_likes = 0` with no division
error. -/
theorem post_like_aggregates (data_per_post : List PostData)
    (h : data_per_post ≠ []) :
    avg_likes data_per_post * (data_per_post.length : ℚ) =
      (total_likes data_per_post : ℚ) ∧
    avg_likes ([] : List PostData) = 0 ∧
    total_likes ([] : List PostData) = 0 ∧
    ∀ p ps, total_likes (p :: ps) = p.likes + total_likes ps := by
  have hlen : data_per_post.length ≠ 0 := fun hc => h (List.length_eq_zero.mp hc)
  refine ⟨?_, by simp [avg_likes], rfl, fun p ps => by simp [total_likes]⟩
  rw [avg_likes, if_pos hlen]
  exact div_mul_cancel₀ _ (by exact_mod_cast hlen)

/-- C8 (witness): two posts with 4 and 6 likes average to their exact mean,
and the aggregates evaluate as claimed. -/
theorem post_like_aggregates_witness :
    avg_likes [⟨"a", 4⟩, ⟨"b", 6⟩] * (([⟨"a", 4⟩, ⟨"b", 6⟩] : List PostData).length : ℚ) =
      (total_likes [⟨"a", 4⟩, ⟨"b", 6⟩] : ℚ) ∧
    avg_likes ([] : List PostData) = 0 :=
  ⟨(post_like_aggregates [⟨"a", 4⟩, ⟨"b", 6⟩] (by decide)).1,
   (post_like_aggregates [⟨"a", 4⟩, ⟨"b", 6⟩] (by decide)).2.1⟩

/-- State of `analytic_data.json` before a run of `output_data`: absent,
present but empty, present but undecodable, or a decoded mapping.  In the
source the first case creates an empty file and starts from `{}`; the
second and third raise `JSONDecodeError`, which is caught and also yields
`{}`. -/
inductive FileState (α : Type) where
  | missing : FileState α
  | empty : FileState α
  | corrupt : FileState α
  | present : List (String × α) → FileState α

/-- The starting mapping `output_data` loads from the file. -/
def load_data {α : Type} : FileState α → List (String × α)
  | FileState.missing => []
  | FileState.empty => []
  | FileState.corrupt => []
  | FileState.present m => m

/-- Python dict assignment `data[user] = value` on an insertion-ordered
mapping: an existing key keeps its position and gets the fresh value, a new
key is appended at the end. -/
def set_key {α : Type} : List (String × α) → String → α → List (String × α)
  | [], k, v => [(k, v)]
  | (k₀, v₀) :: rest, k, v =>
    if k₀ = k then (k₀, v) :: rest else (k₀, v₀) :: set_key rest k v

/-- Lookup in an insertion-ordered mapping. -/
def get_val {α : Type} : List (String × α) → String → Option α
  | [], _ => none
  | (k₀, v₀) :: rest, k => if k₀ = k then some v₀ else get_val rest k

/-- Embedding of `IGAccess.output_data`: load the existing mapping (empty
when the file is missing, empty, or corrupt), then perform
`data[user] = self.data[user]` for every profile of the run, and persist
the result. -/
def output_data {α : Type} (file : FileState α) (self_data : List (String × α)) :
    List (String × α) :=
  self_data.foldl (fun data kv => set_key data kv.1 kv.2) (load_data file)

lemma get_val_set_key {α : Type} (k q : String) (v : α) :
    ∀ d : List (String × α),
      get_val (set_key d k v) q = if k = q then some v else get_val d q := by
  intro d
  induction d with
  | nil => rfl
  | cons a rest ih =>
    obtain ⟨k₀, v₀⟩ := a
    by_cases h₀ : k₀ = k
    · subst h₀
      simp only [set_key, if_pos rfl, get_val]
      by_cases hq : k₀ = q
      · simp [hq]
      · simp [hq]
    · simp only [set_key, if_neg h₀, get_val, ih]
      by_cases hq : k₀ = q
      · have hkq : ¬ k = q := fun hc => h₀ (by rw [hq, hc])
        simp [hq, hkq]
      · simp [hq]

lemma get_val_eq_none {α : Type} (k : String) :
    ∀ d : List (String × α), k ∉ d.map Prod.fst → get_val d k = none := by
  intro d
  induction d with
  | nil => intro _; rfl
  | cons a rest ih =>
    obtain ⟨k₀, v₀⟩ := a
    intro h
    rw [get_val, if_neg (fun hc => h (by simp [hc]))]
    exact ih (fun hc => h (by simp [hc]))

lemma foldl_set_key_get {α : Type} :
    ∀ (self_data base : List (String × α)) (k : String),
      (self_data.map Prod.fst).Nodup →
      get_val (self_data.foldl (fun data kv => set_key data kv.1 kv.2) base) k =
        match get_val self_data k with
        | some v => some v
        | none => get_val base k := by
  intro self_data
  induction self_data with
  | nil => intro base k _; rfl
  | cons a rest ih =>
    obtain ⟨k₀, v₀⟩ := a
    intro base k hnd
    have hmap : (k₀ :: rest.map Prod.fst).Nodup := hnd
    have hnd₀ : k₀ ∉ rest.map Prod.fst := (List.nodup_cons.mp hmap).1
    have hndr : (rest.map Prod.fst).Nodup := (List.nodup_cons.mp hmap).2
    rw [List.foldl_cons, ih (set_key base k₀ v₀) k hndr, get_val]
    by_cases hq : k₀ = k
    · subst hq
      rw [if_pos rfl, get_val_eq_none k₀ rest hnd₀, get_val_set_key, if_pos rfl]
    · rw [if_neg hq]
      cases hrest : get_val rest k with
      | some w => rfl
      | none => rw [get_val_set_key, if_neg hq]

/-- C9: `output_data` merge-updates the persisted per-profile mapping —
every profile of the run overwrites its stored value with the fresh one,
every other stored profile is preserved unchanged, and a missing, empty, or
corrupt existing file is loaded as the empty starting mapping rather than
failing. -/
theorem output_data_merge {α : Type} (file : FileState α)
    (self_data : List (String × α)) (hkeys : (self_data.map Prod.fst).Nodup) :
    (∀ k v, get_val self_data k = some v →
      get_val (output_data file self_data) k = some v) ∧
    (∀ k, get_val self_data k = none →
      get_val (output_data file self_data) k = get_val (load_data file) k) ∧
    load_data (FileState.missing : FileState α) = [] ∧
    load_data (FileState.empty : FileState α) = [] ∧
    load_data (FileState.corrupt : FileState α) = [] := by
  refine ⟨?_, ?_, rfl, rfl, rfl⟩
  · intro k v hv
    rw [output_data, foldl_set_key_get self_data (load_data file) k hkeys, hv]
  · intro k hv
    rw [output_data, foldl_set_key_get self_data (load_data file) k hkeys, hv]

/-- C9 (witness): merging a run that collected fresh data for `alice` and
`bob` into a file already holding `bob` and `carol` overwrites `bob`,
stores `alice`, and preserves `carol`. -/
theorem output_data_merge_witness :
    get_val (output_data (FileState.present [("bob", 1), ("carol", 3)])
      [("alice", 2), ("bob", 7)]) "alice" = some 2 ∧
    get_val (output_data (FileState.present [("bob", 1), ("carol", 3)])
      [("alice", 2), ("bob", 7)]) "bob" = some 7 ∧
    get_val (output_data (FileState.present [("bob", 1), ("carol", 3)])
      [("alice", 2), ("bob", 7)]) "carol" = some 3 := by
  have h := output_data_merge (FileState.present [("bob", 1), ("carol", 3)])
    [("alice", 2), ("bob", 7)] (by decide)
  exact ⟨h.1 "alice" 2 rfl, h.1 "bob" 7 rfl, (h.2.1 "carol" rfl).trans rfl⟩

/-- The slice of `self.data[username]` that `collect_follow_data` writes. -/
structure FollowRecord where
  num_followers : Nat
  num_following : Nat
  followers : List String
  following : List String
deriving DecidableEq

/-- The store step of `IGAccess.collect_follow_data`: the counts written
are the lengths of the materialized lists. -/
def collect_follow_store (followers following : List String) : FollowRecord :=
  { num_followers := followers.length
    num_following := following.length
    followers := followers
    following := following }

/-- Embedding of `IGAccess.collect_follow_data` end to end: materialize the followers
list against the followers-count label `t_followers`, then the following
list against `t_following`, then store.  `none` when either materialization
loop was still polling when its fuel ran out. -/
def collect_follow_data (snaps_f snaps_g : Nat → String)
    (t_followers t_following fuel_f fuel_g : Nat) : Option FollowRecord :=
  match get_list_of_users snaps_f t_followers fuel_f,
      get_list_of_users snaps_g t_following fuel_g with
  | some followers, some following => some (collect_follow_store followers following)
  | _, _ => none

/-- C10: whenever `collect_follow_data` completes, the stored record
satisfies `num_followers = len(followers)` and
`num_following = len(following)` — the persisted counts come from the
materialized lists, not from the UI target-count labels. -/
theorem collect_follow_counts (snaps_f snaps_g : Nat → String)
    (t_followers t_following fuel_f fuel_g : Nat) (r : FollowRecord)
    (h : collect_follow_data snaps_f snaps_g t_followers t_following fuel_f fuel_g =
      some r) :
    r.num_followers = r.followers.length ∧ r.num_following = r.following.length := by
  rw [collect_follow_data] at h
  cases hf : get_list_of_users snaps_f t_followers fuel_f with
  | none => rw [hf] at h; exact absurd h (by simp)
  | some followers =>
    cases hg : get_list_of_users snaps_g t_following fuel_g with
    | none => rw [hf, hg] at h; exact absurd h (by simp)
    | some following =>
      rw [hf, hg] at h
      have hr : collect_follow_store followers following = r := by
        simpa using h
      subst hr
      exact ⟨rfl, rfl⟩

/-- C10 (witness): a followers dialog whose rendered list overshoots the
count label (label 1, two names rendered) stores `num_followers = 2`, the
length of the materialized list, not the label value 1. -/
theorem collect_follow_counts_witness :
    collect_follow_data (fun _ => "A\nFollow\nB") (fun _ => "C") 1 1 3 3 =
      some ⟨2, 1, ["A", "B"], ["C"]⟩ ∧
    (2 = (["A", "B"] : List String).length ∧ 1 = (["C"] : List String).length) ∧
    (2 : Nat) ≠ 1 := by
  refine ⟨rfl, ?_, by decide⟩
  exact collect_follow_counts (fun _ => "A\nFollow\nB") (fun _ => "C") 1 1 3 3
    ⟨2, 1, ["A", "B"], ["C"]⟩ rfl

end IGAccess
